import Mathlib

/-!
Verification of the dome-projection geometry core in
`src/DomeProjection/Python/dome_projection.py`.

The Python code is embedded shallowly over exact rationals: numpy float
arrays become per-pixel functions over `ℚ`, and each call to `numpy.sqrt`
is represented by an explicit certified square-root argument `s` together
with the hypotheses `0 ≤ s` and `s * s = argument` (for a negative
argument no such `s` exists, which models numpy returning NaN).
Fallible arithmetic (division whose denominator can be zero in the code)
is embedded with `Option`, `none` standing for a NaN result.
-/

/-- A 3-vector of exact rationals, standing for one entry of a numpy
`[..., 3]` float array. -/
structure Vec3 where
  x : ℚ
  y : ℚ
  z : ℚ
deriving DecidableEq, Repr

instance : Add Vec3 := ⟨fun u v => ⟨u.x + v.x, u.y + v.y, u.z + v.z⟩⟩

instance : Sub Vec3 := ⟨fun u v => ⟨u.x - v.x, u.y - v.y, u.z - v.z⟩⟩

instance : SMul ℚ Vec3 := ⟨fun q v => ⟨q * v.x, q * v.y, q * v.z⟩⟩

instance : Zero Vec3 := ⟨⟨0, 0, 0⟩⟩

/-- Componentwise dot product, as `numpy.dot` on 3-vectors. -/
def dot3 (u v : Vec3) : ℚ := u.x * v.x + u.y * v.y + u.z * v.z

/-- `dome_projection.py` line 282: `a = pdx**2 + pdy**2 + pdz**2`
for one pixel's direction `d`. -/
def quad_a (d : Vec3) : ℚ := d.x ^ 2 + d.y ^ 2 + d.z ^ 2

/-- `dome_projection.py` line 283: `b = 2*px*pdx + 2*py*pdy + 2*pz*pdz`
for focal point `p` and one pixel's direction `d`. -/
def quad_b (p d : Vec3) : ℚ := 2 * p.x * d.x + 2 * p.y * d.y + 2 * p.z * d.z

/-- `dome_projection.py` line 284: `c = px**2 + py**2 + pz**2 - mirror_radius**2`. -/
def quad_c (p : Vec3) (mirror_radius : ℚ) : ℚ :=
  p.x ^ 2 + p.y ^ 2 + p.z ^ 2 - mirror_radius ^ 2

/-- `dome_projection.py` lines 301-303: given `s = sqrt(d_squared)`,
`r = min([(-b + d) / (2*a), (-b - d) / (2*a)])`. -/
def mirror_r (a b s : ℚ) : ℚ := min ((-b + s) / (2 * a)) ((-b - s) / (2 * a))

/-- `dome_projection.py` lines 285-308: the mask is set to 1 exactly when
`d_squared = b**2 - 4*a*c` is nonnegative, and is never written again in
the rest of `_dome_display_directions` (the dome-intersection loop at
lines 357-368 only reads it), so this is the final validity mask. -/
def projector_mask_pixel (p d : Vec3) (mirror_radius : ℚ) : Bool :=
  decide (0 ≤ (quad_b p d) ^ 2 - 4 * quad_a d * quad_c p mirror_radius)

/-- `dome_projection.py` lines 304-307: the incident light vector
`(r*pdx, r*pdy, r*pdz)` for the chosen root `r`, with `s` the certified
square root of the mirror discriminant. -/
def incident_light_vector (p d : Vec3) (s : ℚ) : Vec3 :=
  mirror_r (quad_a d) (quad_b p d) s • d

/-- `dome_projection.py` line 310:
`mirror_radius_vectors = projector_focal_point + incident_light_vectors`. -/
def mirror_radius_vector (p d : Vec3) (s : ℚ) : Vec3 :=
  p + incident_light_vector p d s

/-- `dome_projection.py` line 311:
`mirrorUnitNormals = mirror_radius_vectors / self._mirror_radius`. -/
def mirrorUnitNormal (p d : Vec3) (mirror_radius s : ℚ) : Vec3 :=
  (1 / mirror_radius) • mirror_radius_vector p d s

/-- `dome_projection.py` lines 329-332:
`reflectedLightVector = -2*dot(incident, u)*u + incident`. -/
def reflectedLightVector (p d : Vec3) (mirror_radius s : ℚ) : Vec3 :=
  (-2 * dot3 (incident_light_vector p d s) (mirrorUnitNormal p d mirror_radius s)) •
      mirrorUnitNormal p d mirror_radius s
    + incident_light_vector p d s

/-- `dome_projection.py` lines 333-334: the reflected vector divided by its
norm, with `n` the certified norm. -/
def reflectedLightDirection (p d : Vec3) (mirror_radius s n : ℚ) : Vec3 :=
  (1 / n) • reflectedLightVector p d mirror_radius s

/-- `dome_projection.py` line 352: `a = rldx**2 + rldy**2 + rldz**2`. -/
def dome_a (rld : Vec3) : ℚ := rld.x ^ 2 + rld.y ^ 2 + rld.z ^ 2

/-- `dome_projection.py` line 353: `b = 2*rpx*rldx + 2*rpy*rldy + 2*rpz*rldz`
where `rp = mirror_radius_vectors - dome_center`. -/
def dome_b (rp rld : Vec3) : ℚ := 2 * rp.x * rld.x + 2 * rp.y * rld.y + 2 * rp.z * rld.z

/-- `dome_projection.py` line 354: `c = rpx**2 + rpy**2 + rpz**2 - dome_radius**2`. -/
def dome_c (rp : Vec3) (dome_radius : ℚ) : ℚ :=
  rp.x ^ 2 + rp.y ^ 2 + rp.z ^ 2 - dome_radius ^ 2

/-- The argument of the `sqrt` at `dome_projection.py` line 362,
`b[i, j]**2 - 4*a[i, j]*c[i, j]`, assembled from the per-pixel chain
(lines 346-354); `s` certifies the mirror sqrt, `n` the reflected norm. -/
def dome_discriminant (p d : Vec3) (mirror_radius s n : ℚ)
    (dome_center : Vec3) (dome_radius : ℚ) : ℚ :=
  (dome_b (mirror_radius_vector p d s - dome_center)
      (reflectedLightDirection p d mirror_radius s n)) ^ 2
    - 4 * dome_a (reflectedLightDirection p d mirror_radius s n)
        * dome_c (mirror_radius_vector p d s - dome_center) dome_radius

/-- `dome_projection.py` lines 362-364: for the dome intersection the code
takes the root with the larger value, `r = max([(-b + d)/(2*a), (-b - d)/(2*a)])`. -/
def dome_r (a b s : ℚ) : ℚ := max ((-b + s) / (2 * a)) ((-b - s) / (2 * a))

/-- `dome_projection.py` lines 355-368: the reflected light vector `r • rld`
is computed only at mask-true pixels; other entries keep the `zeros`
initialization.  The mask itself is never written in this loop. -/
def reflected_light_vector_pixel (mask : Bool) (rp rld : Vec3) (s : ℚ) : Vec3 :=
  if mask then dome_r (dome_a rld) (dome_b rp rld) s • rld else 0

/-- `dome_projection.py` lines 378-389: at mask-true pixels the stored
animal view direction is
`(reflected + mirror_radius_vector - animal_position) / norm`, with `n`
the certified norm; other entries keep the `zeros` initialization. -/
def animal_view_direction_pixel (mask : Bool)
    (reflected mrv animal_position : Vec3) (n : ℚ) : Vec3 :=
  if mask then (1 / n) • (reflected + mrv - animal_position) else 0

/-- Division as numpy performs it in `flat_display_directions`
(lines 874-881): a zero denominator does not raise but produces a
non-finite value (here `0.0/0 = NaN`); `none` models that non-finite
result. -/
def npdiv (x y : ℚ) : Option ℚ := if y = 0 then none else some (x / y)

/-- `dome_projection.py` line 874:
`x = screen_width*(columns/(pixel_width - 1) - 0.5)` for one pixel. -/
def flat_pixel_x (screen_width : ℚ) (pixel_width : ℕ) (col : ℕ) : Option ℚ :=
  (npdiv (col : ℚ) ((pixel_width : ℚ) - 1)).map
    (fun t => screen_width * (t - 1 / 2))

/-- `dome_projection.py` lines 875-877:
`z = distance_to_screen*sin(phi) + (0.5 - rows/(pixel_height - 1))*screen_height*cos(phi) + vertical_offset`;
`sin_phi` and `cos_phi` are the precomputed values of `sin(phi)` and
`cos(phi)`. -/
def flat_pixel_z (screen_height distance_to_screen vertical_offset sin_phi cos_phi : ℚ)
    (pixel_height : ℕ) (row : ℕ) : Option ℚ :=
  (npdiv (row : ℚ) ((pixel_height : ℚ) - 1)).map
    (fun t => distance_to_screen * sin_phi
      + (1 / 2 - t) * screen_height * cos_phi + vertical_offset)

/-- `dome_projection.py` lines 880-881:
`y = distance_to_screen*cos(phi) + (rows/(pixel_height - 1) - 0.5)*screen_height*sin(phi)`. -/
def flat_pixel_y (screen_height distance_to_screen sin_phi cos_phi : ℚ)
    (pixel_height : ℕ) (row : ℕ) : Option ℚ :=
  (npdiv (row : ℚ) ((pixel_height : ℚ) - 1)).map
    (fun t => distance_to_screen * cos_phi + (t - 1 / 2) * screen_height * sin_phi)

/-- One pixel of `flat_display_directions` (lines 847-884) before the final
normalization by `r = sqrt(x**2 + y**2 + z**2)`: `none` when any coordinate
is non-finite.  The code has no special case for a resolution of 1 in
either axis. -/
def flat_display_pixel (screen_height screen_width : ℚ) (pixel_height pixel_width : ℕ)
    (distance_to_screen vertical_offset sin_phi cos_phi : ℚ) (row col : ℕ) : Option Vec3 :=
  match flat_pixel_x screen_width pixel_width col,
      flat_pixel_y screen_height distance_to_screen sin_phi cos_phi pixel_height row,
      flat_pixel_z screen_height distance_to_screen vertical_offset sin_phi cos_phi
        pixel_height row with
  | some x, some y, some z => some ⟨x, y, z⟩
  | _, _, _ => none

/-- `dome_projection.py` lines 882-884: the final normalization of
`flat_display_directions`, `r = sqrt(x**2 + y**2 + z**2)` followed by
`dstack([x/r, y/r, z/r])`, with `n` the certified value of `r`.  This
produces the entries of both flat DirectionFields (the camera-view field
and the projector-image-plane field). -/
def flat_display_direction (screen_height screen_width : ℚ)
    (pixel_height pixel_width : ℕ)
    (distance_to_screen vertical_offset sin_phi cos_phi n : ℚ)
    (row col : ℕ) : Option Vec3 :=
  (flat_display_pixel screen_height screen_width pixel_height pixel_width
      distance_to_screen vertical_offset sin_phi cos_phi row col).map
    (fun v => (1 / n) • v)

/-- The exceptions `_calc_projector_focal_point` can raise:
`zeroDivisionError` models Python's float division by zero at lines
407/412; `linAlgErrorSingular` models `numpy.linalg.LinAlgError`
("Singular matrix") raised by `linalg.solve` at line 417.
`degenerateCalibrationError` models the error class named by the
specification; no class of that name exists anywhere in the repository. -/
inductive FocalError where
  | zeroDivisionError : FocalError
  | linAlgErrorSingular : FocalError
  | degenerateCalibrationError : FocalError
deriving DecidableEq, Repr

/-- A projector calibration quad: four corner points, clockwise from top
left, as `first_projector_image` / `second_projector_image`. -/
structure Quad where
  p0 : Vec3
  p1 : Vec3
  p2 : Vec3
  p3 : Vec3

/-- `_calc_projector_focal_point` (lines 394-420), with `linalg.solve` of
the 2×2 system `[[upperSlope, -1], [lowerSlope, -1]]` replaced by the
equivalent exact Cramer solve; numpy raises `LinAlgError` exactly when the
coefficient matrix is singular, i.e. when its determinant is zero. -/
def calc_projector_focal_point (first second : Quad) : Except FocalError Vec3 :=
  let upper_z1 := first.p0.z
  let upper_z2 := second.p0.z
  let y1 := first.p0.y
  let y2 := second.p0.y
  if y2 - y1 = 0 then Except.error FocalError.zeroDivisionError else
  let upperSlope := (upper_z2 - upper_z1) / (y2 - y1)
  let lower_z1 := first.p2.z
  let lower_z2 := second.p2.z
  let lowerSlope := (lower_z2 - lower_z1) / (y2 - y1)
  let det := upperSlope * (-1) - (-1) * lowerSlope
  if det = 0 then Except.error FocalError.linAlgErrorSingular else
  let b1 := upperSlope * y1 - upper_z1
  let b2 := lowerSlope * y1 - lower_z1
  Except.ok ⟨0, (b1 * (-1) - (-1) * b2) / det, (upperSlope * b2 - lowerSlope * b1) / det⟩

/-- Per-screen constants computed in `__init__` (lines 150-176) and at the
start of `_calc_contributing_pixels` (lines 436-446). -/
structure Screen where
  vector_to_screen : Vec3
  direction_to_screen : Vec3
  distance_to_screen : ℚ
  row_vector : Vec3
  col_vector : Vec3
  row_center : ℚ
  col_center : ℚ
  row_spacing : ℚ
  col_spacing : ℚ
  image_pixel_height : ℚ
  image_pixel_width : ℚ

/-- `dome_projection.py` lines 461-467: scan all screens keeping the one
with the largest dot product so far, starting from screen 0 with dot 0. -/
def select_screen (direction : Vec3) (screens : List Screen) : ℕ × ℚ :=
  screens.enum.foldl
    (fun best is =>
      if dot3 direction is.2.direction_to_screen > best.2
      then (is.1, dot3 direction is.2.direction_to_screen) else best)
    (0, 0)

/-- `_calc_contributing_pixels` for one projector pixel (lines 447-495):
empty when the mask is false, when no screen has positive dot product, or
when the projected coordinate falls outside the image; otherwise the
single `[screen, r, c]` entry appended at line 493. -/
def calc_contributing_pixel (mask : Bool) (direction : Vec3) (screens : List Screen) :
    List (ℕ × ℚ × ℚ) :=
  if mask then
    let sel := select_screen direction screens
    if sel.2 > 0 then
      match screens.get? sel.1 with
      | some s =>
        let magnitude := s.distance_to_screen / sel.2
        let on_screen_vector := magnitude • direction - s.vector_to_screen
        let r := s.row_center + dot3 on_screen_vector s.row_vector / s.row_spacing
        let c := s.col_center + dot3 on_screen_vector s.col_vector / s.col_spacing
        if 0 ≤ r ∧ r < s.image_pixel_height ∧ 0 ≤ c ∧ c < s.image_pixel_width
        then [(sel.1, r, c)] else []
      | none => []
    else []
  else []

/-- `warp_image_for_dome` for one projector pixel (lines 803-810): start
from `zeros(3)`, add the color of every contributing source pixel, and
divide by the count when it is positive. -/
def warp_pixel (contrib : List (ℕ × ℚ × ℚ)) (pixels : ℕ → ℚ → ℚ → Vec3) : Vec3 :=
  let pixel_value := contrib.foldl (fun acc q => acc + pixels q.1 q.2.1 q.2.2) 0
  if 0 < contrib.length then ((1 : ℚ) / contrib.length) • pixel_value else pixel_value

/-- The float→uint8 conversion at line 811 (`array(pixel_value, dtype=uint8)`):
truncation toward zero with wraparound modulo 256; for the nonnegative
averages produced here truncation equals the floor. -/
def toByte (q : ℚ) : ℤ := ⌊q⌋ % 256

/-- One output pixel of `warp_image_for_dome` after the uint8 conversion
(line 811). -/
def warp_pixel_bytes (contrib : List (ℕ × ℚ × ℚ)) (pixels : ℕ → ℚ → ℚ → Vec3) :
    ℤ × ℤ × ℤ :=
  (toByte (warp_pixel contrib pixels).x,
   toByte (warp_pixel contrib pixels).y,
   toByte (warp_pixel contrib pixels).z)

/-- The exception raised on the restart path of
`_find_closest_projector_pixel`: the loop body at lines 548-551 calls
`randint(self._projector_pixel_height)`, but `random.randint` (imported at
line 28 from Python's standard `random` module) requires two positional
arguments `randint(a, b)`, so the very first restart iteration raises
`TypeError`. -/
inductive PyError where
  | typeError : PyError
deriving DecidableEq, Repr

/-- Lines 544-553 of `_find_closest_projector_pixel`: start from the saved
pixel `(r, c)`.  When its mask is 0 the code enters
`while self._projector_mask[r, c] == 0: r = randint(h); c = randint(w)`,
whose first `randint` call raises `TypeError` (one argument passed to a
two-argument function); when the mask is 1 the saved pixel is used
unchanged. -/
def find_closest_start (mask : ℕ → ℕ → Bool) (r c : ℕ) : Except PyError (ℕ × ℕ) :=
  if mask r c then Except.ok (r, c) else Except.error PyError.typeError

/-- `_calc_neighbor_dot_products` lines 592-595: offsets of the row above,
the two pixels beside, and the row below. -/
def neighbor_offsets : List (ℤ × ℤ) :=
  [(-1, -1), (-1, 0), (-1, 1), (0, -1), (0, 1), (1, -1), (1, 0), (1, 1)]

/-- `_calc_neighbor_dot_products` lines 596-599: keep the offsets that stay
inside the projector grid. -/
def neighbor_list (h w : ℕ) (row col : ℕ) : List (ℕ × ℕ) :=
  neighbor_offsets.filterMap (fun o =>
    if 0 ≤ (row : ℤ) + o.1 ∧ (row : ℤ) + o.1 < (h : ℤ)
        ∧ 0 ≤ (col : ℤ) + o.2 ∧ (col : ℤ) + o.2 < (w : ℤ)
    then some (((row : ℤ) + o.1).toNat, ((col : ℤ) + o.2).toNat)
    else none)

/-- Python's builtin `max` on a list of floats; the lists it is applied to
in `_find_closest_projector_pixel` are always nonempty (on an empty list
`max` would raise `ValueError`). -/
def list_max : List ℚ → ℚ
  | [] => 0
  | q :: qs => qs.foldl max q

/-- `_calc_neighbor_dot_products` (lines 581-607): the list of dot products
of the camera direction with each neighbor's animal-view direction, paired
with the list of neighbor coordinates. -/
def calc_neighbor_dot_products (h w : ℕ) (animal : ℕ → ℕ → Vec3)
    (row col : ℕ) (camera_direction : Vec3) : List ℚ × List (ℕ × ℕ) :=
  (((neighbor_list h w row col).map
      (fun nb => dot3 camera_direction (animal nb.1 nb.2))),
   neighbor_list h w row col)

/-- The hill-climb loop of `_find_closest_projector_pixel` (lines 557-573),
written with explicit fuel: while some neighbor's dot product exceeds `dp`,
move to the first neighbor attaining the maximum
(`neighbors[neighbor_dps.index(max(neighbor_dps))]`) and repeat; stop at a
local maximum.  The Python loop is unbounded;
`hill_climb_terminates_at_local_max` proves fuel `h*w + 1` always suffices,
so the two agree on every reachable input. -/
def find_closest_loop (h w : ℕ) (animal : ℕ → ℕ → Vec3) (camera_direction : Vec3) :
    ℕ → ℚ → ℕ → ℕ → Option (ℕ × ℕ)
  | 0, _, _, _ => none
  | fuel + 1, dp, r, c =>
    let nd := calc_neighbor_dot_products h w animal r c camera_direction
    if dp < list_max nd.1 then
      let nb := nd.2.getD (nd.1.indexOf (list_max nd.1)) (r, c)
      find_closest_loop h w animal camera_direction fuel (list_max nd.1) nb.1 nb.2
    else some (r, c)

/-- A small concrete animal-view direction field used to instantiate the
hill-climb theorem. -/
def demo_animal_view (r c : ℕ) : Vec3 := ⟨(r : ℚ), (c : ℚ), 1⟩

/-- A small concrete camera direction used to instantiate the hill-climb
theorem. -/
def demo_camera_direction : Vec3 := ⟨1, 1, 0⟩

/-- Generic fact about the root selection of `mirror_r`: with `a > 0`,
a certified square root `s` of the discriminant and a positive smaller
root, `mirror_r` returns the smaller of the two (positive) roots and is
minimal among all roots of the quadratic. -/
theorem quadratic_min_root_spec (a b c s : ℚ) (ha : 0 < a) (hs : 0 ≤ s)
    (hdisc : s ^ 2 = b ^ 2 - 4 * a * c) (hpos : 0 < -b - s) :
    mirror_r a b s = (-b - s) / (2 * a) ∧
    0 < mirror_r a b s ∧
    mirror_r a b s ≤ (-b + s) / (2 * a) ∧
    0 < (-b + s) / (2 * a) ∧
    a * (mirror_r a b s) ^ 2 + b * (mirror_r a b s) + c = 0 ∧
    ∀ t : ℚ, a * t ^ 2 + b * t + c = 0 → mirror_r a b s ≤ t := by
  have h2a : 0 < 2 * a := by linarith
  have h2a' : (2 * a) ≠ 0 := ne_of_gt h2a
  have hle : (-b - s) / (2 * a) ≤ (-b + s) / (2 * a) := by
    rw [div_le_div_iff_of_pos_right h2a]
    nlinarith
  have hmin : mirror_r a b s = (-b - s) / (2 * a) := min_eq_right hle
  have hr1pos : 0 < (-b - s) / (2 * a) := div_pos hpos h2a
  have hroot : a * ((-b - s) / (2 * a)) ^ 2 + b * ((-b - s) / (2 * a)) + c = 0 := by
    field_simp
    nlinarith [hdisc]
  refine ⟨hmin, ?_, ?_, ?_, ?_, ?_⟩
  · rw [hmin]; exact hr1pos
  · rw [hmin]; exact hle
  · exact lt_of_lt_of_le hr1pos hle
  · rw [hmin]; exact hroot
  · intro t ht
    rw [hmin]
    have hfac : (t - (-b - s) / (2 * a)) * (a * (t + (-b - s) / (2 * a)) + b) = 0 := by
      have hexp : (t - (-b - s) / (2 * a)) * (a * (t + (-b - s) / (2 * a)) + b)
          = (a * t ^ 2 + b * t + c)
            - (a * ((-b - s) / (2 * a)) ^ 2 + b * ((-b - s) / (2 * a)) + c) := by
        ring
      rw [hexp, ht, hroot]
      ring
    rcases mul_eq_zero.mp hfac with h0 | h0
    · have : t = (-b - s) / (2 * a) := by linarith
      rw [this]
    · -- then t is the other root (-b + s) / (2 * a), which is ≥ the smaller one
      have h2 : 2 * a * ((-b - s) / (2 * a)) + b + s = 0 := by
        field_simp
        ring
      have h3 : a * t - a * ((-b - s) / (2 * a)) = s := by
        linear_combination h0 - h2
      have h4 : 0 ≤ a * t - a * ((-b - s) / (2 * a)) := by linarith
      by_contra hneg
      push_neg at hneg
      nlinarith [mul_pos ha (show 0 < (-b - s) / (2 * a) - t by linarith)]

/-- Claim C1: for a projector pixel whose mirror-intersection quadratic
(coefficients `a = d·d`, `b = 2 p·d`, `c = p·p − mirror_radius²`) has a
nonnegative discriminant (certified square root `s`) and two positive
roots, the scalar `r` chosen by lines 301-303 is the smaller of the two
positive roots, i.e. the nearest intersection forward along the ray. -/
theorem mirror_r_is_smaller_positive_root (p d : Vec3) (mirror_radius s : ℚ)
    (ha : 0 < quad_a d) (hs : 0 ≤ s)
    (hdisc : s ^ 2 = (quad_b p d) ^ 2 - 4 * quad_a d * quad_c p mirror_radius)
    (hpos : 0 < -(quad_b p d) - s) :
    mirror_r (quad_a d) (quad_b p d) s = (-(quad_b p d) - s) / (2 * quad_a d) ∧
    0 < mirror_r (quad_a d) (quad_b p d) s ∧
    mirror_r (quad_a d) (quad_b p d) s ≤ (-(quad_b p d) + s) / (2 * quad_a d) ∧
    0 < (-(quad_b p d) + s) / (2 * quad_a d) ∧
    quad_a d * (mirror_r (quad_a d) (quad_b p d) s) ^ 2
      + quad_b p d * (mirror_r (quad_a d) (quad_b p d) s)
      + quad_c p mirror_radius = 0 ∧
    ∀ t : ℚ, quad_a d * t ^ 2 + quad_b p d * t + quad_c p mirror_radius = 0 →
      mirror_r (quad_a d) (quad_b p d) s ≤ t :=
  quadratic_min_root_spec (quad_a d) (quad_b p d) (quad_c p mirror_radius) s ha hs hdisc hpos

/-- Concrete instance of C1: focal point `(0,2,0)`, pixel direction
`(0,-1,0)`, mirror radius 1 gives `a = 1`, `b = -4`, `c = 3`,
discriminant 4, roots 1 and 3; the code picks `r = 1`. -/
theorem mirror_r_is_smaller_positive_root_witness :
    0 < quad_a ⟨0, -1, 0⟩ ∧
    mirror_r (quad_a ⟨0, -1, 0⟩) (quad_b ⟨0, 2, 0⟩ ⟨0, -1, 0⟩) 2
      = (-(quad_b ⟨0, 2, 0⟩ ⟨0, -1, 0⟩) - 2) / (2 * quad_a ⟨0, -1, 0⟩) ∧
    0 < mirror_r (quad_a ⟨0, -1, 0⟩) (quad_b ⟨0, 2, 0⟩ ⟨0, -1, 0⟩) 2 := by
  have h := mirror_r_is_smaller_positive_root ⟨0, 2, 0⟩ ⟨0, -1, 0⟩ 1 2
    (by norm_num [quad_a]) (by norm_num)
    (by norm_num [quad_a, quad_b, quad_c]) (by norm_num [quad_b])
  exact ⟨by norm_num [quad_a], h.1, h.2.1⟩

@[simp] theorem Vec3.add_def (u v : Vec3) :
    u + v = ⟨u.x + v.x, u.y + v.y, u.z + v.z⟩ := rfl

@[simp] theorem Vec3.sub_def (u v : Vec3) :
    u - v = ⟨u.x - v.x, u.y - v.y, u.z - v.z⟩ := rfl

@[simp] theorem Vec3.smul_def (q : ℚ) (v : Vec3) :
    q • v = ⟨q * v.x, q * v.y, q * v.z⟩ := rfl

@[simp] theorem Vec3.zero_def : (0 : Vec3) = ⟨0, 0, 0⟩ := rfl

/-- Normalizing a vector by a certified nonzero norm yields squared norm
exactly 1. -/
theorem normalize_unit_normSq (v : Vec3) (n : ℚ)
    (hn2 : n * n = dot3 v v) (hn : n ≠ 0) :
    dot3 ((1 / n) • v) ((1 / n) • v) = 1 := by
  have hnz : n * n ≠ 0 := mul_ne_zero hn hn
  have h1 : dot3 ((1 / n) • v) ((1 / n) • v) = dot3 v v / (n * n) := by
    simp only [dot3, Vec3.smul_def]
    field_simp
  rw [h1, ← hn2, div_self hnz]

/-- Claim C2 (code bug witness): a mirror-hitting pixel whose reflected ray
misses the dome.  Focal point `(0,2,0)`, pixel direction `(0,-1,0)`, mirror
radius 1: the mirror discriminant is 4 (mask set true), the mirror point is
`(0,1,0)` and the reflected direction `(0,1,0)`.  With dome center
`(10,0,0)` and dome radius 1 the dome discriminant is -396, which has no
real square root — numpy's `sqrt` at line 362 yields NaN — while the mask,
which the dome loop (lines 357-368) never writes, stays true instead of
being set false as the claim requires. -/
theorem dome_miss_keeps_mask_valid :
    projector_mask_pixel ⟨0, 2, 0⟩ ⟨0, -1, 0⟩ 1 = true ∧
    (2 : ℚ) ^ 2 = (quad_b ⟨0, 2, 0⟩ ⟨0, -1, 0⟩) ^ 2
      - 4 * quad_a ⟨0, -1, 0⟩ * quad_c ⟨0, 2, 0⟩ 1 ∧
    (1 : ℚ) * 1 = dot3 (reflectedLightVector ⟨0, 2, 0⟩ ⟨0, -1, 0⟩ 1 2)
                       (reflectedLightVector ⟨0, 2, 0⟩ ⟨0, -1, 0⟩ 1 2) ∧
    dome_discriminant ⟨0, 2, 0⟩ ⟨0, -1, 0⟩ 1 2 1 ⟨10, 0, 0⟩ 1 < 0 ∧
    (∀ t : ℚ, t * t ≠ dome_discriminant ⟨0, 2, 0⟩ ⟨0, -1, 0⟩ 1 2 1 ⟨10, 0, 0⟩ 1) := by
  have hval : dome_discriminant ⟨0, 2, 0⟩ ⟨0, -1, 0⟩ 1 2 1 ⟨10, 0, 0⟩ 1 = -396 := by
    norm_num [dome_discriminant, dome_a, dome_b, dome_c, mirror_radius_vector,
      reflectedLightDirection, reflectedLightVector, mirrorUnitNormal,
      incident_light_vector, mirror_r, quad_a, quad_b, quad_c, dot3]
  refine ⟨?_, ?_, ?_, ?_, ?_⟩
  · simp only [projector_mask_pixel, decide_eq_true_eq]
    norm_num [quad_a, quad_b, quad_c]
  · norm_num [quad_a, quad_b, quad_c]
  · norm_num [reflectedLightVector, mirrorUnitNormal, mirror_radius_vector,
      incident_light_vector, mirror_r, quad_a, quad_b, quad_c, dot3]
  · rw [hval]; norm_num
  · intro t
    rw [hval]
    nlinarith [mul_self_nonneg t]

/-- Claim C6 (code bug witness): a mask-true pixel whose stored animal-view
direction is not a unit vector.  At focal point `(0,2,0)`, pixel direction
`(0,-1,0)`, mirror radius 1, dome center `(10,0,0)`, dome radius 1, the
mirror discriminant is 4, so the mask is set true and the chain up to the
reflected direction is exact (certificates in the second and third
conjuncts).  But the dome discriminant is -396, which has no real square
root: numpy's `sqrt` at line 362 yields NaN, which propagates through the
reflected light vector (lines 363-368) into the animal-view vector and its
normalization (lines 385-389).  The direction stored at this mask-true
pixel is therefore a NaN vector, whose norm is not within 1e-6 of 1 — the
same missing dome-discriminant check as in the dome-miss mask bug. -/
theorem masked_pixel_nonunit_direction :
    projector_mask_pixel ⟨0, 2, 0⟩ ⟨0, -1, 0⟩ 1 = true ∧
    (2 : ℚ) * 2 = (quad_b ⟨0, 2, 0⟩ ⟨0, -1, 0⟩) ^ 2
      - 4 * quad_a ⟨0, -1, 0⟩ * quad_c ⟨0, 2, 0⟩ 1 ∧
    (1 : ℚ) * 1 = dot3 (reflectedLightVector ⟨0, 2, 0⟩ ⟨0, -1, 0⟩ 1 2)
                       (reflectedLightVector ⟨0, 2, 0⟩ ⟨0, -1, 0⟩ 1 2) ∧
    (∀ t : ℚ, t * t ≠ dome_discriminant ⟨0, 2, 0⟩ ⟨0, -1, 0⟩ 1 2 1 ⟨10, 0, 0⟩ 1) := by
  have hval : dome_discriminant ⟨0, 2, 0⟩ ⟨0, -1, 0⟩ 1 2 1 ⟨10, 0, 0⟩ 1 = -396 := by
    norm_num [dome_discriminant, dome_a, dome_b, dome_c, mirror_radius_vector,
      reflectedLightDirection, reflectedLightVector, mirrorUnitNormal,
      incident_light_vector, mirror_r, quad_a, quad_b, quad_c, dot3]
  refine ⟨?_, ?_, ?_, ?_⟩
  · simp only [projector_mask_pixel, decide_eq_true_eq]
    norm_num [quad_a, quad_b, quad_c]
  · norm_num [quad_a, quad_b, quad_c]
  · norm_num [reflectedLightVector, mirrorUnitNormal, mirror_radius_vector,
      incident_light_vector, mirror_r, quad_a, quad_b, quad_c, dot3]
  · intro t
    rw [hval]
    nlinarith [mul_self_nonneg t]

/-- Claim C7 counterexample: constructed DirectionField entries without
unit norm, one per failure mode.  (1) The animal-view entry at a
mask-false pixel is the zero vector left by the `zeros` initialization
(lines 378-379), of norm 0, not 1.  (2) At a mask-true pixel of the
dome-miss geometry (focal point `(0,2,0)`, direction `(0,-1,0)`, mirror
radius 1, dome center `(10,0,0)`, dome radius 1) the dome discriminant is
negative, so the sqrt at line 362 is NaN and the stored entry is
non-finite — no certified normalization of it exists.  (3) At
`pixel_height = 1` a flat-field entry (camera view or projector image
plane) is non-finite because of the 0.0/0 interpolation. -/
theorem direction_field_unit_norm_cex :
    animal_view_direction_pixel false ⟨1, 0, 0⟩ ⟨0, 1, 0⟩ ⟨0, 0, 0⟩ 1 = (0 : Vec3) ∧
    dot3 (animal_view_direction_pixel false ⟨1, 0, 0⟩ ⟨0, 1, 0⟩ ⟨0, 0, 0⟩ 1)
         (animal_view_direction_pixel false ⟨1, 0, 0⟩ ⟨0, 1, 0⟩ ⟨0, 0, 0⟩ 1) ≠ 1 ∧
    projector_mask_pixel ⟨0, 2, 0⟩ ⟨0, -1, 0⟩ 1 = true ∧
    dome_discriminant ⟨0, 2, 0⟩ ⟨0, -1, 0⟩ 1 2 1 ⟨10, 0, 0⟩ 1 < 0 ∧
    flat_display_direction 1 1 1 2 1 0 0 1 1 0 0 = none := by
  have h0 : animal_view_direction_pixel false ⟨1, 0, 0⟩ ⟨0, 1, 0⟩ ⟨0, 0, 0⟩ 1
      = (0 : Vec3) := by
    simp [animal_view_direction_pixel]
  refine ⟨h0, ?_, ?_, ?_, ?_⟩
  · rw [h0, Vec3.zero_def]
    norm_num [dot3]
  · simp only [projector_mask_pixel, decide_eq_true_eq]
    norm_num [quad_a, quad_b, quad_c]
  · norm_num [dome_discriminant, dome_a, dome_b, dome_c, mirror_radius_vector,
      reflectedLightDirection, reflectedLightVector, mirrorUnitNormal,
      incident_light_vector, mirror_r, quad_a, quad_b, quad_c, dot3]
  · norm_num [flat_display_direction, flat_display_pixel, flat_pixel_x,
      flat_pixel_y, flat_pixel_z, npdiv]

/-- Claim C7 (amended): a DirectionField entry has unit norm exactly where
the construction performs a defined normalization.  The animal-view entry
at a mask-false pixel is the zero vector (norm 0); at a mask-true pixel
whose mirror/dome chain is defined — witnessed by a certified nonzero norm
`n` of the animal-view vector — the entry has squared norm exactly 1; and
a flat-field entry (camera-view or projector-image-plane field) whose
interpolation is defined, with certified nonzero norm `n2`, likewise
normalizes to squared norm exactly 1. -/
theorem direction_field_norm_characterization
    (reflected mrv animal_position : Vec3) (n : ℚ)
    (screen_height screen_width distance_to_screen vertical_offset sin_phi cos_phi : ℚ)
    (pixel_height pixel_width row col : ℕ) (v : Vec3) (n2 : ℚ)
    (hn2 : n * n = dot3 (reflected + mrv - animal_position)
                        (reflected + mrv - animal_position))
    (hn : n ≠ 0)
    (hflat : flat_display_pixel screen_height screen_width pixel_height pixel_width
        distance_to_screen vertical_offset sin_phi cos_phi row col = some v)
    (hv2 : n2 * n2 = dot3 v v) (hv : n2 ≠ 0) :
    animal_view_direction_pixel false reflected mrv animal_position n = 0 ∧
    dot3 (animal_view_direction_pixel true reflected mrv animal_position n)
         (animal_view_direction_pixel true reflected mrv animal_position n) = 1 ∧
    flat_display_direction screen_height screen_width pixel_height pixel_width
        distance_to_screen vertical_offset sin_phi cos_phi n2 row col
      = some ((1 / n2) • v) ∧
    dot3 ((1 / n2) • v) ((1 / n2) • v) = 1 := by
  refine ⟨?_, ?_, ?_, ?_⟩
  · simp [animal_view_direction_pixel]
  · simp only [animal_view_direction_pixel, if_true]
    exact normalize_unit_normSq _ n hn2 hn
  · rw [flat_display_direction, hflat]
    rfl
  · exact normalize_unit_normSq v n2 hv2 hv

/-- Concrete instance of the amended C7: animal-view vector `(0,0,12)`
with norm 12, and the flat pixel (0,0) of a 2×2 grid with screen height 0,
width 6, distance 4 — the vector `(-3,4,0)` of norm 5. -/
theorem direction_field_norm_characterization_witness :
    animal_view_direction_pixel false ⟨0, 0, 12⟩ ⟨0, 0, 0⟩ ⟨0, 0, 0⟩ 12 = 0 ∧
    dot3 (animal_view_direction_pixel true ⟨0, 0, 12⟩ ⟨0, 0, 0⟩ ⟨0, 0, 0⟩ 12)
         (animal_view_direction_pixel true ⟨0, 0, 12⟩ ⟨0, 0, 0⟩ ⟨0, 0, 0⟩ 12) = 1 ∧
    flat_display_direction 0 6 2 2 4 0 0 1 5 0 0
      = some (((1 : ℚ) / 5) • (⟨-3, 4, 0⟩ : Vec3)) ∧
    dot3 (((1 : ℚ) / 5) • (⟨-3, 4, 0⟩ : Vec3))
         (((1 : ℚ) / 5) • (⟨-3, 4, 0⟩ : Vec3)) = 1 :=
  direction_field_norm_characterization ⟨0, 0, 12⟩ ⟨0, 0, 0⟩ ⟨0, 0, 0⟩ 12
    0 6 4 0 0 1 2 2 0 0 ⟨-3, 4, 0⟩ 5
    (by norm_num [dot3]) (by norm_num)
    (by norm_num [flat_display_pixel, flat_pixel_x, flat_pixel_y, flat_pixel_z, npdiv])
    (by norm_num [dot3]) (by norm_num)

/-- Claim C3 (code bug witness): `flat_display_directions` has no special
case for a single-row or single-column grid.  At `pixel_height = 1` the
code evaluates `rows/(pixel_height - 1) = 0.0/0`, a division by zero
yielding NaN (embedded as `none`); likewise for `pixel_width = 1`.  A
2×2 grid, by contrast, is fully defined (pixel (0,0) shown). -/
theorem flat_display_single_resolution_divzero :
    flat_display_pixel 1 1 1 2 1 0 0 1 0 0 = none ∧
    flat_display_pixel 1 1 2 1 1 0 0 1 0 0 = none ∧
    flat_display_pixel 1 1 2 2 1 0 0 1 0 0 = some ⟨-(1 / 2), 1, 1 / 2⟩ := by
  refine ⟨?_, ?_, ?_⟩ <;>
    norm_num [flat_display_pixel, flat_pixel_x, flat_pixel_y, flat_pixel_z, npdiv]

/-- Claim C4 counterexample: two calibration quads whose top and bottom
far-point lines are parallel (both slopes 1).  The code's `linalg.solve`
raises numpy's `LinAlgError` ("Singular matrix"), not a
`DegenerateCalibrationError` — no class of that name exists in the
repository. -/
theorem focal_point_singular_error_cex :
    calc_projector_focal_point
        ⟨⟨0, 1, 2⟩, ⟨1, 1, 2⟩, ⟨1, 1, 0⟩, ⟨0, 1, 0⟩⟩
        ⟨⟨0, 2, 3⟩, ⟨1, 2, 3⟩, ⟨1, 2, 1⟩, ⟨0, 2, 1⟩⟩
      = Except.error FocalError.linAlgErrorSingular ∧
    (Except.error FocalError.linAlgErrorSingular : Except FocalError Vec3)
      ≠ Except.error FocalError.degenerateCalibrationError := by
  constructor
  · norm_num [calc_projector_focal_point]
  · simp

/-- Claim C4 (amended): whenever the two far-point lines are parallel
(equal slopes, i.e. equal z-increments over the same y-increment) and the
slope divisions are defined, `_calc_projector_focal_point` fails with
numpy's `LinAlgError` for a singular matrix — the error the code actually
raises in place of the specification's `DegenerateCalibrationError`. -/
theorem focal_point_parallel_lines_linalg_error (first second : Quad)
    (hy : second.p0.y - first.p0.y ≠ 0)
    (hpar : second.p0.z - first.p0.z = second.p2.z - first.p2.z) :
    calc_projector_focal_point first second
      = Except.error FocalError.linAlgErrorSingular := by
  simp only [calc_projector_focal_point]
  rw [if_neg hy, hpar]
  rw [if_pos (by ring :
    (second.p2.z - first.p2.z) / (second.p0.y - first.p0.y) * (-1)
      - (-1) * ((second.p2.z - first.p2.z) / (second.p0.y - first.p0.y)) = 0)]

/-- Concrete instance of the amended C4 at the parallel quads of the
counterexample. -/
theorem focal_point_parallel_lines_linalg_error_witness :
    calc_projector_focal_point
        ⟨⟨0, 1, 2⟩, ⟨1, 1, 2⟩, ⟨1, 1, 0⟩, ⟨0, 1, 0⟩⟩
        ⟨⟨0, 2, 3⟩, ⟨1, 2, 3⟩, ⟨1, 2, 1⟩, ⟨0, 2, 1⟩⟩
      = Except.error FocalError.linAlgErrorSingular :=
  focal_point_parallel_lines_linalg_error
    ⟨⟨0, 1, 2⟩, ⟨1, 1, 2⟩, ⟨1, 1, 0⟩, ⟨0, 1, 0⟩⟩
    ⟨⟨0, 2, 3⟩, ⟨1, 2, 3⟩, ⟨1, 2, 1⟩, ⟨0, 2, 1⟩⟩
    (by norm_num) (by norm_num)

/-- Claim C5: a projector pixel whose mirror discriminant is negative gets
mask false (the `d_squared >= 0` guard at line 296 never fires), an empty
contributing-pixel list (the mask guard at line 449), and a black warped
output — for every possible source-image content, since the empty fold at
lines 806-807 never reads `pixels`. -/
theorem mirror_miss_gives_black (p d : Vec3) (mirror_radius : ℚ)
    (direction : Vec3) (screens : List Screen)
    (hmiss : (quad_b p d) ^ 2 - 4 * quad_a d * quad_c p mirror_radius < 0) :
    projector_mask_pixel p d mirror_radius = false ∧
    calc_contributing_pixel (projector_mask_pixel p d mirror_radius) direction screens
      = [] ∧
    ∀ pixels : ℕ → ℚ → ℚ → Vec3,
      warp_pixel (calc_contributing_pixel (projector_mask_pixel p d mirror_radius)
          direction screens) pixels = 0 ∧
      warp_pixel_bytes (calc_contributing_pixel (projector_mask_pixel p d mirror_radius)
          direction screens) pixels = (0, 0, 0) := by
  have hm : projector_mask_pixel p d mirror_radius = false := by
    simp only [projector_mask_pixel, decide_eq_false_iff_not, not_le]
    exact hmiss
  have hc : calc_contributing_pixel (projector_mask_pixel p d mirror_radius)
      direction screens = [] := by
    rw [hm]
    simp [calc_contributing_pixel]
  refine ⟨hm, hc, fun pixels => ?_⟩
  rw [hc]
  constructor
  · simp [warp_pixel]
  · simp [warp_pixel_bytes, warp_pixel, toByte]

/-- Concrete instance of C5: focal point `(0,2,0)`, direction `(1,0,0)`,
mirror radius 1 gives discriminant `-12`; the pixel is masked out and warps
to black whatever the source images hold. -/
theorem mirror_miss_gives_black_witness :
    projector_mask_pixel ⟨0, 2, 0⟩ ⟨1, 0, 0⟩ 1 = false ∧
    calc_contributing_pixel (projector_mask_pixel ⟨0, 2, 0⟩ ⟨1, 0, 0⟩ 1) ⟨0, 1, 0⟩ []
      = [] ∧
    warp_pixel (calc_contributing_pixel (projector_mask_pixel ⟨0, 2, 0⟩ ⟨1, 0, 0⟩ 1)
        ⟨0, 1, 0⟩ []) (fun _ _ _ => ⟨7, 7, 7⟩) = 0 := by
  have h := mirror_miss_gives_black ⟨0, 2, 0⟩ ⟨1, 0, 0⟩ 1 ⟨0, 1, 0⟩ []
    (by norm_num [quad_a, quad_b, quad_c])
  exact ⟨h.1, h.2.1, (h.2.2 (fun _ _ _ => ⟨7, 7, 7⟩)).1⟩

/-- Summing a constant color over a contributing list. -/
theorem foldl_add_const (l : List (ℕ × ℚ × ℚ)) (C z : Vec3) :
    l.foldl (fun acc _ => acc + C) z = z + (l.length : ℚ) • C := by
  induction l generalizing z with
  | nil =>
    simp [Vec3.smul_def]
  | cons h t ih =>
    simp only [List.foldl_cons, List.length_cons, ih]
    simp only [Vec3.add_def, Vec3.smul_def, Vec3.mk.injEq]
    push_cast
    refine ⟨by ring, by ring, by ring⟩

/-- Claim C10: warping inputs in which every source pixel has one constant
byte color `(cr, cg, cb)`: a projector pixel with a non-empty contributing
list averages to exactly that color (and converts back to the same uint8
bytes), and a pixel with an empty list stays black. -/
theorem warp_constant_color (contrib : List (ℕ × ℚ × ℚ)) (cr cg cb : ℕ)
    (hr : cr < 256) (hg : cg < 256) (hb : cb < 256) :
    warp_pixel contrib (fun _ _ _ => ⟨cr, cg, cb⟩)
      = (if contrib = [] then 0 else ⟨cr, cg, cb⟩) ∧
    warp_pixel_bytes contrib (fun _ _ _ => ⟨cr, cg, cb⟩)
      = (if contrib = [] then (0, 0, 0) else ((cr : ℤ), (cg : ℤ), (cb : ℤ))) := by
  have hbyte : ∀ k : ℕ, k < 256 → toByte (k : ℚ) = (k : ℤ) := by
    intro k hk
    simp only [toByte, Int.floor_natCast]
    exact Int.emod_eq_of_lt (by positivity) (by exact_mod_cast hk)
  rcases eq_or_ne contrib [] with hnil | hne
  · subst hnil
    constructor
    · simp [warp_pixel]
    · simp [warp_pixel_bytes, warp_pixel, toByte]
  · have hlen : 0 < contrib.length := List.length_pos.mpr hne
    have hlenq : ((contrib.length : ℚ)) ≠ 0 := by positivity
    have hwarp : warp_pixel contrib (fun _ _ _ => ⟨cr, cg, cb⟩)
        = (⟨cr, cg, cb⟩ : Vec3) := by
      simp only [warp_pixel, foldl_add_const, hlen, if_pos]
      simp only [Vec3.zero_def, Vec3.add_def, Vec3.smul_def, Vec3.mk.injEq]
      refine ⟨?_, ?_, ?_⟩ <;> field_simp
    constructor
    · rw [hwarp, if_neg hne]
    · rw [if_neg hne]
      simp only [warp_pixel_bytes, hwarp]
      rw [hbyte cr hr, hbyte cg hg, hbyte cb hb]

/-- Concrete instance of C10: two contributing pixels of color
`(10, 20, 30)` average back to `(10, 20, 30)`; the uint8 output matches. -/
theorem warp_constant_color_witness :
    warp_pixel [(0, 1/2, 1/2), (0, 3/2, 1/2)] (fun _ _ _ => ⟨10, 20, 30⟩)
      = ⟨10, 20, 30⟩ ∧
    warp_pixel_bytes [(0, 1/2, 1/2), (0, 3/2, 1/2)] (fun _ _ _ => ⟨10, 20, 30⟩)
      = (10, 20, 30) := by
  have h := warp_constant_color [(0, 1/2, 1/2), (0, 3/2, 1/2)] 10 20 30
    (by norm_num) (by norm_num) (by norm_num)
  constructor
  · have h1 := h.1
    rw [if_neg (by simp)] at h1
    exact_mod_cast h1
  · have h2 := h.2
    rw [if_neg (by simp)] at h2
    exact_mod_cast h2


/-- The running maximum of `foldl max` is the initial value or one of the
list elements. -/
theorem foldl_max_mem (qs : List ℚ) : ∀ q : ℚ, qs.foldl max q ∈ q :: qs := by
  induction qs with
  | nil => intro q; simp
  | cons a t ih =>
    intro q
    simp only [List.foldl_cons]
    rcases List.mem_cons.mp (ih (max q a)) with h1 | h1
    · rw [h1]
      rcases max_choice q a with h2 | h2 <;> rw [h2] <;> simp
    · exact List.mem_cons.mpr (Or.inr (List.mem_cons.mpr (Or.inr h1)))

/-- `foldl max` dominates its initial value. -/
theorem foldl_max_ge_init (qs : List ℚ) : ∀ q : ℚ, q ≤ qs.foldl max q := by
  induction qs with
  | nil => intro q; simp
  | cons a t ih =>
    intro q
    simp only [List.foldl_cons]
    exact le_trans (le_max_left q a) (ih (max q a))

/-- `foldl max` dominates every list element. -/
theorem foldl_max_ge_mem (qs : List ℚ) : ∀ q a : ℚ, a ∈ qs → a ≤ qs.foldl max q := by
  induction qs with
  | nil => intro q a ha; cases ha
  | cons b t ih =>
    intro q a ha
    simp only [List.foldl_cons]
    rcases List.mem_cons.mp ha with h1 | h1
    · rw [h1]
      exact le_trans (le_max_right q b) (foldl_max_ge_init t (max q b))
    · exact ih (max q b) a h1

/-- Python's `max` returns an element of a nonempty list. -/
theorem list_max_mem (l : List ℚ) (hl : l ≠ []) : list_max l ∈ l := by
  match l with
  | [] => exact absurd rfl hl
  | q :: qs => exact foldl_max_mem qs q

/-- Python's `max` dominates every element of the list. -/
theorem list_max_ge (l : List ℚ) (a : ℚ) (ha : a ∈ l) : a ≤ list_max l := by
  match l with
  | [] => cases ha
  | q :: qs =>
    rcases List.mem_cons.mp ha with h1 | h1
    · rw [h1]; exact foldl_max_ge_init qs q
    · exact foldl_max_ge_mem qs q a h1

/-- `neighbors[neighbor_dps.index(max(neighbor_dps))]` (line 571): indexing
the neighbor list at the first index where the mapped dot products attain a
value `m` of that list yields a neighbor whose dot product is `m`. -/
theorem getD_indexOf_map (L : List (ℕ × ℕ)) (f : ℕ × ℕ → ℚ) (m : ℚ) (d : ℕ × ℕ)
    (hm : m ∈ L.map f) :
    f (L.getD ((L.map f).indexOf m) d) = m ∧ L.getD ((L.map f).indexOf m) d ∈ L := by
  have hidx : (L.map f).indexOf m < (L.map f).length := List.indexOf_lt_length.mpr hm
  have hidx2 : (L.map f).indexOf m < L.length := by simpa using hidx
  have hgetD : L.getD ((L.map f).indexOf m) d = L[(L.map f).indexOf m] :=
    List.getD_eq_getElem _ _ hidx2
  rw [hgetD]
  constructor
  · have h1 : (L.map f)[(L.map f).indexOf m] = m := List.getElem_indexOf hidx
    have h2 : (L.map f)[(L.map f).indexOf m] = f (L[(L.map f).indexOf m]) :=
      List.getElem_map f
    rw [h2] at h1
    exact h1
  · exact List.getElem_mem hidx2

/-- Every neighbor produced by the bounds-checked offsets is inside the
projector grid. -/
theorem neighbor_list_bounds (h w row col : ℕ) :
    ∀ q ∈ neighbor_list h w row col, q.1 < h ∧ q.2 < w := by
  intro q hq
  rcases List.mem_filterMap.mp hq with ⟨o, _, ho⟩
  by_cases hcond : 0 ≤ (row : ℤ) + o.1 ∧ (row : ℤ) + o.1 < (h : ℤ)
      ∧ 0 ≤ (col : ℤ) + o.2 ∧ (col : ℤ) + o.2 < (w : ℤ)
  · rw [if_pos hcond] at ho
    obtain ⟨h1, h2, h3, h4⟩ := hcond
    cases ho
    constructor <;> omega
  · rw [if_neg hcond] at ho
    cases ho

/-- On a grid with at least two columns every in-bounds pixel has at least
one neighbor (the pixel beside it). -/
theorem neighbor_list_nonempty (h w row col : ℕ) (hw : 2 ≤ w) (hr : row < h)
    (hc : col < w) : neighbor_list h w row col ≠ [] := by
  have hmem : ∀ o ∈ neighbor_offsets,
      (0 ≤ (row : ℤ) + o.1 ∧ (row : ℤ) + o.1 < (h : ℤ)
        ∧ 0 ≤ (col : ℤ) + o.2 ∧ (col : ℤ) + o.2 < (w : ℤ)) →
      (((row : ℤ) + o.1).toNat, ((col : ℤ) + o.2).toNat) ∈ neighbor_list h w row col := by
    intro o ho hcond
    exact List.mem_filterMap.mpr ⟨o, ho, if_pos hcond⟩
  rcases Nat.eq_zero_or_pos col with h0 | h0
  · refine List.ne_nil_of_mem (hmem ((0 : ℤ), (1 : ℤ)) (by simp [neighbor_offsets]) ?_)
    refine ⟨by omega, by omega, by omega, by omega⟩
  · refine List.ne_nil_of_mem (hmem ((0 : ℤ), (-1 : ℤ)) (by simp [neighbor_offsets]) ?_)
    refine ⟨by omega, by omega, by omega, by omega⟩

/-- Loop invariant for the hill climb: when the number of grid pixels whose
dot product strictly exceeds the current one is below the fuel, the loop
returns an in-bounds local maximum without exhausting the fuel.  The
measure strictly decreases at every move, because each move goes to a
pixel of strictly larger dot product. -/
theorem find_closest_loop_spec (h w : ℕ) (animal : ℕ → ℕ → Vec3) (cam : Vec3)
    (hw : 2 ≤ w) :
    ∀ (fuel : ℕ) (r c : ℕ), r < h → c < w →
    (((Finset.range h ×ˢ Finset.range w).filter
        (fun q => dot3 cam (animal r c) < dot3 cam (animal q.1 q.2))).card < fuel) →
    ∃ p : ℕ × ℕ,
      find_closest_loop h w animal cam fuel (dot3 cam (animal r c)) r c = some p ∧
      p.1 < h ∧ p.2 < w ∧
      dot3 cam (animal r c) ≤ dot3 cam (animal p.1 p.2) ∧
      ∀ q ∈ neighbor_list h w p.1 p.2,
        dot3 cam (animal q.1 q.2) ≤ dot3 cam (animal p.1 p.2) := by
  intro fuel
  induction fuel with
  | zero =>
    intro r c hr hc hm
    exact absurd hm (Nat.not_lt_zero _)
  | succ fuel ih =>
    intro r c hr hc hm
    by_cases hlt : dot3 cam (animal r c)
        < list_max ((neighbor_list h w r c).map
            (fun nb => dot3 cam (animal nb.1 nb.2)))
    · -- the loop moves to the first neighbor attaining the maximum
      have hne : neighbor_list h w r c ≠ [] := neighbor_list_nonempty h w r c hw hr hc
      have hdpsne : (neighbor_list h w r c).map
          (fun nb => dot3 cam (animal nb.1 nb.2)) ≠ [] := by
        simpa using hne
      have hmmem := list_max_mem _ hdpsne
      obtain ⟨hval, hmem⟩ := getD_indexOf_map (neighbor_list h w r c)
        (fun nb => dot3 cam (animal nb.1 nb.2))
        (list_max ((neighbor_list h w r c).map
          (fun nb => dot3 cam (animal nb.1 nb.2)))) (r, c) hmmem
      set nb := (neighbor_list h w r c).getD
        (((neighbor_list h w r c).map
          (fun nb => dot3 cam (animal nb.1 nb.2))).indexOf
          (list_max ((neighbor_list h w r c).map
            (fun nb => dot3 cam (animal nb.1 nb.2))))) (r, c) with hnbdef
      obtain ⟨hnb1, hnb2⟩ := neighbor_list_bounds h w r c nb hmem
      have hltnb : dot3 cam (animal r c) < dot3 cam (animal nb.1 nb.2) := by
        rw [hval]
        exact hlt
      -- the measure strictly decreases
      have hsubset : ((Finset.range h ×ˢ Finset.range w).filter
            (fun q => dot3 cam (animal nb.1 nb.2) < dot3 cam (animal q.1 q.2)))
          ⊆ ((Finset.range h ×ˢ Finset.range w).filter
            (fun q => dot3 cam (animal r c) < dot3 cam (animal q.1 q.2))) := by
        intro q hq
        rw [Finset.mem_filter] at hq ⊢
        exact ⟨hq.1, lt_trans hltnb hq.2⟩
      have hnbgrid : nb ∈ Finset.range h ×ˢ Finset.range w := by
        rw [Finset.mem_product, Finset.mem_range, Finset.mem_range]
        exact ⟨hnb1, hnb2⟩
      have hss : ((Finset.range h ×ˢ Finset.range w).filter
            (fun q => dot3 cam (animal nb.1 nb.2) < dot3 cam (animal q.1 q.2)))
          ⊂ ((Finset.range h ×ˢ Finset.range w).filter
            (fun q => dot3 cam (animal r c) < dot3 cam (animal q.1 q.2))) := by
        rw [Finset.ssubset_iff_of_subset hsubset]
        refine ⟨nb, ?_, ?_⟩
        · rw [Finset.mem_filter]
          exact ⟨hnbgrid, hltnb⟩
        · rw [Finset.mem_filter]
          rintro ⟨-, habs⟩
          exact lt_irrefl _ habs
      have hcard := Finset.card_lt_card hss
      have hmeas : ((Finset.range h ×ˢ Finset.range w).filter
            (fun q => dot3 cam (animal nb.1 nb.2) < dot3 cam (animal q.1 q.2))).card
          < fuel := by omega
      obtain ⟨p, hp, hp1, hp2, hp3, hp4⟩ := ih nb.1 nb.2 hnb1 hnb2 hmeas
      refine ⟨p, ?_, hp1, hp2, le_trans (le_of_lt hltnb) hp3, hp4⟩
      rw [hval] at hp
      simp only [find_closest_loop, calc_neighbor_dot_products]
      rw [if_pos hlt]
      exact hp
    · -- no neighbor improves on the current pixel: local maximum reached
      push_neg at hlt
      refine ⟨(r, c), ?_, hr, hc, le_refl _, ?_⟩
      · simp only [find_closest_loop, calc_neighbor_dot_products]
        rw [if_neg (not_lt.mpr hlt)]
      · intro q hq
        have hmem : dot3 cam (animal q.1 q.2)
            ∈ (neighbor_list h w r c).map (fun nb => dot3 cam (animal nb.1 nb.2)) :=
          List.mem_map.mpr ⟨q, hq, rfl⟩
        exact le_trans (list_max_ge _ _ hmem) hlt

/-- Claim C8: for every query direction and every in-bounds starting pixel
(on a grid with at least two columns), the greedy hill climb of
`_find_closest_projector_pixel` terminates — each move strictly increases
the dot product over the finite grid, so fuel `h*w + 1` is never exhausted
— and the returned pixel is a local maximum: none of its up-to-8 grid
neighbors (fewer at grid edges) has a strictly larger dot product with the
query direction. -/
theorem hill_climb_terminates_at_local_max (h w : ℕ) (animal : ℕ → ℕ → Vec3)
    (cam : Vec3) (r c : ℕ) (hw : 2 ≤ w) (hr : r < h) (hc : c < w) :
    ∃ p : ℕ × ℕ,
      find_closest_loop h w animal cam (h * w + 1) (dot3 cam (animal r c)) r c
        = some p ∧
      p.1 < h ∧ p.2 < w ∧
      dot3 cam (animal r c) ≤ dot3 cam (animal p.1 p.2) ∧
      ∀ q ∈ neighbor_list h w p.1 p.2,
        dot3 cam (animal q.1 q.2) ≤ dot3 cam (animal p.1 p.2) := by
  apply find_closest_loop_spec h w animal cam hw (h * w + 1) r c hr hc
  have h1 : ((Finset.range h ×ˢ Finset.range w).filter
        (fun q => dot3 cam (animal r c) < dot3 cam (animal q.1 q.2))).card
      ≤ (Finset.range h ×ˢ Finset.range w).card := Finset.card_filter_le _ _
  have h2 : (Finset.range h ×ˢ Finset.range w).card = h * w := by
    rw [Finset.card_product, Finset.card_range, Finset.card_range]
  omega

/-- Concrete instance of C8 on a 2×2 grid. -/
theorem hill_climb_terminates_at_local_max_witness :
    ∃ p : ℕ × ℕ,
      find_closest_loop 2 2 demo_animal_view demo_camera_direction 5
        (dot3 demo_camera_direction (demo_animal_view 0 0)) 0 0 = some p ∧
      p.1 < 2 ∧ p.2 < 2 ∧
      dot3 demo_camera_direction (demo_animal_view 0 0)
        ≤ dot3 demo_camera_direction (demo_animal_view p.1 p.2) ∧
      ∀ q ∈ neighbor_list 2 2 p.1 p.2,
        dot3 demo_camera_direction (demo_animal_view q.1 q.2)
          ≤ dot3 demo_camera_direction (demo_animal_view p.1 p.2) :=
  hill_climb_terminates_at_local_max 2 2 demo_animal_view demo_camera_direction 0 0
    (by norm_num) (by norm_num) (by norm_num)

/-- Claim C9 (code bug witness): a mask with a valid pixel at (1,1) but an
invalid saved start pixel (0,0).  Instead of restarting from a random valid
pixel, the restart path raises `TypeError`, because `randint` from Python's
`random` module is called with one argument where two are required. -/
theorem restart_path_raises_typeerror :
    (fun r c : ℕ => decide (r = 1 ∧ c = 1)) 1 1 = true ∧
    find_closest_start (fun r c : ℕ => decide (r = 1 ∧ c = 1)) 0 0
      = Except.error PyError.typeError := by
  constructor
  · decide
  · simp [find_closest_start]
